import Mathlib

/-!
Verification development for the frozenFoods_webscraper repository.

The core under study is `src/utils/normalizer.py` (class `DataNormalizer`) and
`src/process_data.py` (class `DataProcessor`).  Python functions are embedded
shallowly: `Optional[str]` becomes `Option String`, Python floats carrying
prices become exact rationals (`ℚ`, built with `mkRat`; the floating-point
rounding of CPython is abstracted away, which is exact at the magnitudes the
claims exercise), functions that can raise return `Except PyErr _`, and a
pandas `DataFrame` of product rows becomes a `List Record` where a missing or
NaN cell is `Option.none`.

Regular-expression semantics (`re.search` with the concrete patterns used by
the source) are embedded as explicit left-to-right scanners, together with
declarative match predicates and correctness lemmas relating the two.
-/

deriving instance DecidableEq for Except

namespace FrozenFoods

/-- Python exception kinds that the embedded code can raise. -/
inductive PyErr where
  | attributeError
  | keyError
  | typeError
  deriving DecidableEq

/-! ### Character classes (ASCII fragment of Python's `\w`, `\s`, `\d`, `[a-z]`) -/

/-- Python `\s` (ASCII fragment): space, tab, newline, carriage return,
vertical tab, form feed. -/
def isPySpace (c : Char) : Bool :=
  c == ' ' || c == '\t' || c == '\n' || c == '\r' || c == '\x0b' || c == '\x0c'

/-- Python `\w` (ASCII fragment): letters, digits, underscore. -/
def isWordChar (c : Char) : Bool :=
  c.isAlpha || c.isDigit || c == '_'

/-- Python `[a-z]`. -/
def isLowerAlpha (c : Char) : Bool :=
  97 ≤ c.toNat && c.toNat ≤ 122

/-- Python `\d` (ASCII fragment): `'0'..'9'`. -/
def pyIsDigit (c : Char) : Bool :=
  48 ≤ c.toNat && c.toNat ≤ 57

/-- ASCII lower-casing, modelling `str.lower` on the ASCII fragment. -/
def pyToLower (c : Char) : Char :=
  if 65 ≤ c.toNat && c.toNat ≤ 90 then Char.ofNat (c.toNat + 32) else c

/-- ASCII upper-casing, modelling `str.upper` of a single character. -/
def pyToUpper (c : Char) : Char :=
  if 97 ≤ c.toNat && c.toNat ≤ 122 then Char.ofNat (c.toNat - 32) else c

/-! ### Whitespace handling: `re.sub(r'\s+', ' ', text)`, `str.strip`, `str.split` -/

/-- `collapseAux prevWs l` replaces every maximal whitespace run in `l` by a
single `' '`; `prevWs` records whether the previous character was part of a
whitespace run already emitted. -/
def collapseAux : Bool → List Char → List Char
  | _, [] => []
  | prevWs, c :: cs =>
    if isPySpace c then
      if prevWs then collapseAux true cs else ' ' :: collapseAux true cs
    else
      c :: collapseAux false cs

/-- `re.sub(r'\s+', ' ', s)`: collapse every whitespace run to one space. -/
def collapseWs (l : List Char) : List Char := collapseAux false l

/-- `str.strip()`: drop whitespace from both ends. -/
def pyStrip (l : List Char) : List Char :=
  ((l.dropWhile isPySpace).reverse.dropWhile isPySpace).reverse

/-- Helper for `splitWs`: `cur` is the reversed current word. -/
def splitWsAux : List Char → List Char → List (List Char)
  | cur, [] => if cur.isEmpty then [] else [cur.reverse]
  | cur, c :: cs =>
    if isPySpace c then
      if cur.isEmpty then splitWsAux [] cs else cur.reverse :: splitWsAux [] cs
    else
      splitWsAux (c :: cur) cs

/-- `str.split()` with no argument: split on whitespace runs, no empty words. -/
def splitWs (l : List Char) : List (List Char) := splitWsAux [] l

/-- `' '.join(words)`. -/
def joinSpace (ws : List (List Char)) : List Char := List.intercalate [' '] ws

/-! ### Decimal digit strings -/

/-- Numeric value of a decimal digit character. -/
def digitVal (c : Char) : ℕ := c.toNat - 48

/-- Value of a decimal digit string, most significant first. -/
def digitsToNat (l : List Char) : ℕ := l.foldl (fun a c => 10 * a + digitVal c) 0

/-- Fuel-driven decimal rendering of a natural number (most significant digit
first); structural in the fuel so that it reduces inside the kernel. -/
def natDigitsAux : ℕ → ℕ → List Char
  | 0, _ => []
  | fuel + 1, n =>
    if n < 10 then [Nat.digitChar n]
    else natDigitsAux fuel (n / 10) ++ [Nat.digitChar (n % 10)]

/-- Decimal digit list of `n`, e.g. `natDigits 45 = ['4', '5']`. -/
def natDigits (n : ℕ) : List Char := natDigitsAux (n + 1) n

/-- Decimal string of `n`. -/
def natStr (n : ℕ) : String := String.mk (natDigits n)

/-! ### `DataNormalizer.clean_text` (src/utils/normalizer.py, lines 17-40)

```python
if not text: return None
text = re.sub(r'\s+', ' ', text).strip()
text = re.sub(r'[^\w\s.,\-–—()&/]', '', text)
text = text.replace('–', '-').replace('—', '-')
return text if text else None
```
-/

/-- The character class kept by `re.sub(r'[^\w\s.,\-–—()&/]', '', text)`. -/
def keptChar (c : Char) : Bool :=
  isWordChar c || isPySpace c || c == '.' || c == ',' || c == '-' ||
    c == '–' || c == '—' || c == '(' || c == ')' || c == '&' || c == '/'

/-- `text.replace('–', '-').replace('—', '-')` on a single character. -/
def dashFix (c : Char) : Char :=
  if c == '–' || c == '—' then '-' else c

/-- `DataNormalizer.clean_text`.  Note that the only inputs treated as null-ish
are the falsy ones (`None` and `""`); any other string proceeds through the
regex pipeline. -/
def clean_text : Option String → Option String
  | Option.none => Option.none
  | some s =>
    if s.data.isEmpty then Option.none
    else
      let t1 := pyStrip (collapseWs s.data)
      let t2 := t1.filter keptChar
      let t3 := t2.map dashFix
      if t3.isEmpty then Option.none else some (String.mk t3)

/-! ### `DataNormalizer.clean_price` (src/utils/normalizer.py, lines 42-66)

```python
if not price: return None
price_match = re.search(r'(\d+[.,]\d{2})', str(price))
if price_match:
    price_str = price_match.group(1).replace(',', '.')
    try: return float(price_str)
    except ValueError: return None
return None
```
The `except ValueError` branch is unreachable: the matched text is always a
valid float literal.  `float` of the matched `digits[.,]dd` text is modelled
exactly as the rational `cents / 100`.
-/

/-- A Python value that may be handed to `clean_price`: `None`, a string, or a
number (Python `int`/`float`, modelled as an exact rational). -/
inductive PyVal where
  | none
  | str (s : String)
  | num (q : ℚ)

/-- Python truthiness for the values `clean_price` receives. -/
def pyTruthy : PyVal → Bool
  | .none => false
  | .str s => !s.data.isEmpty
  | .num q => !(q.num == 0)

/-- Greedy match of `\d+[.,]\d{2}` anchored at the head of `l`: a maximal
nonempty digit run, a separator, then two digits.  Returns the matched text. -/
def priceTokAt (l : List Char) : Option (List Char) :=
  let ds := l.takeWhile pyIsDigit
  if ds.isEmpty then Option.none
  else
    match l.dropWhile pyIsDigit with
    | sep :: d1 :: d2 :: _ =>
      if (sep == '.' || sep == ',') && pyIsDigit d1 && pyIsDigit d2 then
        some (ds ++ [sep, d1, d2])
      else Option.none
    | _ => Option.none

/-- `re.search(r'(\d+[.,]\d{2})', s)`: left-to-right scan for the first
position where the pattern matches. -/
def priceSearch : List Char → Option (List Char)
  | [] => Option.none
  | c :: cs =>
    match priceTokAt (c :: cs) with
    | some m => some m
    | Option.none => priceSearch cs

/-- Value in cents of a matched price token `digits ++ [sep, d1, d2]`; this is
`float(matched.replace(',', '.')) * 100`, exactly. -/
def centsOfTok (m : List Char) : ℕ :=
  let ds := m.takeWhile pyIsDigit
  match m.dropWhile pyIsDigit with
  | _ :: d1 :: d2 :: _ => digitsToNat ds * 100 + digitVal d1 * 10 + digitVal d2
  | _ => 0

/-- Rendering of a nonnegative float whose exact value is `c / 100` cents, as
CPython's shortest-round-trip `str` produces it: trailing zero decimals are
dropped, and an integral value is rendered with a single `.0`.  Faithful only
while the double nearest `c / 100` still has that fixed-point numeral as its
shortest repr — guaranteed below the magnitude bound enforced by `pyStrNum`,
because there the spacing of doubles is far below one hundredth. -/
def pyStrNumCents (c : ℕ) : String :=
  if c % 100 == 0 then natStr (c / 100) ++ ".0"
  else if c % 10 == 0 then
    natStr (c / 100) ++ "." ++ String.mk [Nat.digitChar (c / 10 % 10)]
  else
    natStr (c / 100) ++ "." ++ String.mk [Nat.digitChar (c % 100 / 10), Nat.digitChar (c % 10)]

/-- `str(q)` for a Python number.  Modelled exactly for nonnegative values
with at most two decimal digits and below `2^32` cents, where CPython's 53-bit
doubles represent the value to far better than a hundredth and the shortest
repr is the fixed-point numeral `pyStrNumCents` builds.  Larger or finer
values round (`str(float('562949953421312.13')) = '562949953421312.1'`) or use
scientific notation; they are outside this model's scope and render to `""`.
The claims exercise only the modelled range. -/
def pyStrNum (q : ℚ) : String :=
  if 0 ≤ q.num && 100 % q.den == 0 && q.num.toNat * (100 / q.den) < 4294967296 then
    pyStrNumCents (q.num.toNat * (100 / q.den))
  else ""

/-- `str(price)` for the values `clean_price` receives. -/
def pyStrOfVal : PyVal → String
  | .none => "None"
  | .str s => s
  | .num q => pyStrNum q

/-- `DataNormalizer.clean_price`.  Every truthy input — numbers included — is
rendered with `str` and scanned; there is no direct acceptance of numeric
input. -/
def clean_price (price : PyVal) : Option ℚ :=
  if pyTruthy price then
    (priceSearch (pyStrOfVal price).data).map (fun m => mkRat (centsOfTok m) 100)
  else Option.none

/-! ### `DataNormalizer.parse_size_weight_volume` (src/utils/normalizer.py, lines 68-109)

```python
result = {'value': None, 'unit': None, 'type': None}
if not text: return result
text = text.lower().strip()
match = re.search(r'(\d+(?:[.,]\d+)?)\s*([a-z]+)', text)
if match:
    ...
    if unit in DataNormalizer.WEIGHT_UNITS or unit in ['kg', 'g', 'mg']:
```
`DataNormalizer` defines no attribute `WEIGHT_UNITS` (nor `VOLUME_UNITS`)
anywhere in the source, so the membership test raises `AttributeError` on
every successful regex match; the result dictionary is returned only when the
pattern does not match.
-/

/-- The `{'value': ..., 'unit': ..., 'type': ...}` result dictionary. -/
structure SizeResult where
  value : Option String
  unit : Option String
  typ : Option String
  deriving DecidableEq

/-- Greedy match of `(\d+(?:[.,]\d+)?)\s*([a-z]+)` anchored at the head of
`l`: maximal digit run, optional fractional part, optional whitespace, then a
nonempty lowercase-letter run.  Returns (number text, unit text). -/
def numUnitAtHead (l : List Char) : Option (List Char × List Char) :=
  let ds := l.takeWhile pyIsDigit
  if ds.isEmpty then Option.none
  else
    let r1 := l.dropWhile pyIsDigit
    let fr :=
      match r1 with
      | sep :: rest =>
        if (sep == '.' || sep == ',') && !(rest.takeWhile pyIsDigit).isEmpty then
          (sep :: rest.takeWhile pyIsDigit, rest.dropWhile pyIsDigit)
        else ([], r1)
      | [] => ([], r1)
    let r3 := fr.2.dropWhile isPySpace
    let us := r3.takeWhile isLowerAlpha
    if us.isEmpty then Option.none else some (ds ++ fr.1, us)

/-- `re.search` scan for the number-plus-unit pattern. -/
def numUnitSearch : List Char → Option (List Char × List Char)
  | [] => Option.none
  | c :: cs =>
    match numUnitAtHead (c :: cs) with
    | some m => some m
    | Option.none => numUnitSearch cs

/-- `DataNormalizer.parse_size_weight_volume`.  A successful pattern match
reaches the lookup of the undefined class attribute `WEIGHT_UNITS` and raises
`AttributeError`; only a failed match returns the all-`None` result record. -/
def parse_size_weight_volume : Option String → Except PyErr SizeResult
  | Option.none => .ok ⟨Option.none, Option.none, Option.none⟩
  | some s =>
    if s.data.isEmpty then .ok ⟨Option.none, Option.none, Option.none⟩
    else if (numUnitSearch (pyStrip (s.data.map pyToLower))).isSome then
      .error PyErr.attributeError
    else .ok ⟨Option.none, Option.none, Option.none⟩

/-! ### `DataNormalizer.normalize_brand` (src/utils/normalizer.py, lines 112-130)

```python
if not brand: return None
brand = DataNormalizer.clean_text(brand)
brand = ' '.join(word.capitalize() for word in brand.split())
return brand
```
When `clean_text` returns `None` (a brand whose characters are all stripped),
`brand.split()` is attribute access on `None` and raises `AttributeError`.
-/

/-- `str.capitalize`: first character upper-cased, the rest lower-cased. -/
def pyCapitalize : List Char → List Char
  | [] => []
  | c :: cs => pyToUpper c :: cs.map pyToLower

/-- `DataNormalizer.normalize_brand`. -/
def normalize_brand : Option String → Except PyErr (Option String)
  | Option.none => .ok Option.none
  | some s =>
    if s.data.isEmpty then .ok Option.none
    else
      match clean_text (some s) with
      | Option.none => .error PyErr.attributeError
      | some t => .ok (some (String.mk (joinSpace ((splitWs t.data).map pyCapitalize))))

/-! ### `DataNormalizer.validate_barcode` (src/utils/normalizer.py, lines 133-154) -/

/-- `DataNormalizer.validate_barcode`: keep only digits; accept lengths
8, 12, 13, 14. -/
def validate_barcode : Option String → Option String
  | Option.none => Option.none
  | some s =>
    if s.data.isEmpty then Option.none
    else
      let ds := s.data.filter pyIsDigit
      if ds.length == 8 || ds.length == 12 || ds.length == 13 || ds.length == 14 then
        some (String.mk ds)
      else Option.none

/-! ### `DataNormalizer.normalize_product_data` (src/utils/normalizer.py, lines 156-190)

Applies the field normalizers to one product dictionary.  The source guards
each update with `if field in normalized`; the embedding models a record in
which every field key is present (an absent value is `Option.none` /
`PyVal.none`), which is the shape the scraper template produces.
-/

/-- A raw product dictionary, restricted to the fields
`normalize_product_data` touches. -/
structure RawRecord where
  product_name : Option String
  description : Option String
  brand : Option String
  category : Option String
  department : Option String
  price : PyVal
  barcode : Option String
  size_weight_volume : Option String

/-- The normalized product dictionary produced by `normalize_product_data`. -/
structure NormRecord where
  product_name : Option String
  description : Option String
  brand : Option String
  category : Option String
  department : Option String
  price : Option ℚ
  barcode : Option String
  size_weight_volume : Option String
  unit_of_measure : Option String

/-- The `unit_of_measure` stage of `normalize_product_data`: when
`size_weight_volume` is truthy, `parse_size_weight_volume` runs (and may
raise) and its `unit` field is stored. -/
def sizeUnitOf : Option String → Except PyErr (Option String)
  | Option.none => .ok Option.none
  | some sv =>
    if sv.data.isEmpty then .ok Option.none
    else
      match parse_size_weight_volume (some sv) with
      | .error e => .error e
      | .ok r => .ok r.unit

/-- `DataNormalizer.normalize_product_data`: text fields through `clean_text`,
price through `clean_price`, brand additionally through `normalize_brand`,
barcode through `validate_barcode`, and — when `size_weight_volume` is truthy —
the parsed unit into `unit_of_measure`.  `normalize_brand` and
`parse_size_weight_volume` can raise, so the whole function can. -/
def normalize_product_data (p : RawRecord) : Except PyErr NormRecord :=
  match normalize_brand (clean_text p.brand) with
  | .error e => .error e
  | .ok br =>
    match sizeUnitOf p.size_weight_volume with
    | .error e => .error e
    | .ok u =>
      .ok ⟨clean_text p.product_name, clean_text p.description, br, clean_text p.category,
        clean_text p.department, clean_price p.price, validate_barcode p.barcode,
        p.size_weight_volume, u⟩

/-! ### Longest common subsequence and the rapidfuzz scorer

`src/process_data.py` scores candidate pairs with
`rapidfuzz.fuzz.token_sort_ratio`: both strings are whitespace-tokenized, the
tokens sorted and re-joined with single spaces, and the joined strings
compared with the normalized InDel (indel) similarity
`(len1 + len2 - distance) / (len1 + len2) * 100 = 2·LCS / (len1+len2) * 100`
(100 when both strings are empty).  rapidfuzz computes this as a float; the
embedding keeps the exact rational. -/

/-- Fuel-driven longest-common-subsequence length (structural in the fuel so
that concrete instances reduce in the kernel). -/
def lcsAux : ℕ → List Char → List Char → ℕ
  | 0, _, _ => 0
  | _ + 1, [], _ => 0
  | _ + 1, _ :: _, [] => 0
  | fuel + 1, a :: as, b :: bs =>
    if a = b then lcsAux fuel as bs + 1
    else max (lcsAux fuel as (b :: bs)) (lcsAux fuel (a :: as) bs)

/-- Longest-common-subsequence length of two character lists. -/
def lcsLen (x y : List Char) : ℕ := lcsAux (x.length + y.length) x y

/-- Code-point lexicographic order on character lists, the order Python's
`sorted` uses on strings. -/
def lexLe : List Char → List Char → Bool
  | [], _ => true
  | _ :: _, [] => false
  | a :: as, b :: bs =>
    if a.toNat < b.toNat then true
    else if b.toNat < a.toNat then false
    else lexLe as bs

/-- `lexLe` as a relation, for use with `List.insertionSort`. -/
def lexR (a b : List Char) : Prop := lexLe a b = true

instance : DecidableRel lexR := fun a b => instDecidableEqBool (lexLe a b) true

/-- The whitespace tokens of a string (Python `s.split()`). -/
def tokens (s : String) : List (List Char) := splitWs s.data

/-- Sorted-token preprocessing of `token_sort_ratio`:
`' '.join(sorted(s.split()))`. -/
def sortedJoin (s : String) : List Char :=
  joinSpace (List.insertionSort lexR (tokens s))

/-- `rapidfuzz.fuzz.token_sort_ratio`, as an exact rational in `[0, 100]`. -/
def token_sort_ratio (a b : String) : ℚ :=
  if (sortedJoin a).length + (sortedJoin b).length = 0 then 100
  else
    mkRat (200 * lcsLen (sortedJoin a) (sortedJoin b))
      ((sortedJoin a).length + (sortedJoin b).length)

/-! ### `DataProcessor.find_similar_products` (src/process_data.py, lines 147-239) -/

/-- Modelled from the spec: `DataNormalizer.normalize_product_name` is called
from `DataProcessor.find_similar_products` but is defined in no source file of
the repository.  Spec §4.1 (`normalize_product_name_for_matching`) describes
it: lower-case; strip multi-pack substrings (*count `x` number+unit*) and bare
*number+unit* substrings, with units ml, g, kg, l, mm; collapse whitespace.
`sizeMatchLen` returns the length of such a substring anchored at the head. -/
def sizeUnits : List (List Char) := [['m', 'l'], ['g'], ['k', 'g'], ['l'], ['m', 'm']]

/-- Length of a bare *number+unit* match anchored at the head of `l`
(digits, optional fractional part, optional spaces, then a letter run that is
exactly one of the size units). -/
def bareSizeLen (l : List Char) : Option ℕ :=
  let ds := l.takeWhile pyIsDigit
  if ds.isEmpty then Option.none
  else
    let r1 := l.dropWhile pyIsDigit
    let fr :=
      match r1 with
      | sep :: rest =>
        if (sep == '.' || sep == ',') && !(rest.takeWhile pyIsDigit).isEmpty then
          (1 + (rest.takeWhile pyIsDigit).length, rest.dropWhile pyIsDigit)
        else (0, r1)
      | [] => (0, r1)
    let sp := fr.2.takeWhile isPySpace
    let us := (fr.2.dropWhile isPySpace).takeWhile isLowerAlpha
    if sizeUnits.contains us then
      some (ds.length + fr.1 + sp.length + us.length)
    else Option.none

/-- Length of a multi-pack *count `x` number+unit* match anchored at the head
of `l`. -/
def packSizeLen (l : List Char) : Option ℕ :=
  let ds := l.takeWhile pyIsDigit
  if ds.isEmpty then Option.none
  else
    let r1 := l.dropWhile pyIsDigit
    let sp1 := r1.takeWhile isPySpace
    match r1.dropWhile isPySpace with
    | x :: rest =>
      if x == 'x' then
        let sp2 := rest.takeWhile isPySpace
        match bareSizeLen (rest.dropWhile isPySpace) with
        | some n => some (ds.length + sp1.length + 1 + sp2.length + n)
        | Option.none => Option.none
      else Option.none
    | [] => Option.none

/-- One size-ish match (multi-pack preferred) anchored at the head of `l`. -/
def sizeMatchLen (l : List Char) : Option ℕ :=
  match packSizeLen l with
  | some n => some n
  | Option.none => bareSizeLen l

/-- Remove every size-ish substring, scanning left to right (fuel-driven). -/
def stripSizesAux : ℕ → List Char → List Char
  | 0, l => l
  | _ + 1, [] => []
  | fuel + 1, c :: cs =>
    match sizeMatchLen (c :: cs) with
    | some n => stripSizesAux fuel (cs.drop (n - 1))
    | Option.none => c :: stripSizesAux fuel cs

/-- Modelled from the spec: `DataNormalizer.normalize_product_name` (missing
from the source; spec §4.1): lower-case, strip pack/size substrings, collapse
whitespace, trim. -/
def normalize_product_name (s : String) : String :=
  let low := s.data.map pyToLower
  String.mk (pyStrip (collapseWs (stripSizesAux low.length low)))

/-- The scalar a numeric-capable DataFrame cell holds once
`pd.DataFrame(list_of_dicts)` has inferred the column's dtype: Python `None`
(an absent value in an all-absent, object-typed column), float NaN (an absent
value in a column that also holds numbers, where pandas coerces `None` to
NaN), or an actual number.  The distinction is observable: the source tests
cells with `is not None`, which NaN passes. -/
inductive Cell where
  | none
  | nan
  | num (q : ℚ)
  deriving DecidableEq

/-- Python's `x is not None` on a cell: NaN *is not* `None`. -/
def Cell.isNotNone : Cell → Bool
  | Cell.none => false
  | _ => true

/-- One row of the normalized DataFrame handed to `find_similar_products`.
A missing or NaN text cell is `Option.none`; numeric cells keep the
three-way `Cell` distinction because the retention test observes it. -/
structure Record where
  retailer : Option String
  product_name : Option String
  brand : Option String
  size_weight_volume : Option String
  price : Cell
  price_per_unit : Cell
  product_url : Option String
  deriving DecidableEq

/-- The `(price, price_per_unit, product_url)` triple a catalog contributes to
a group. -/
structure Triple where
  price : Cell
  price_per_unit : Cell
  product_url : Option String
  deriving DecidableEq

/-- One matched product group: the base product's display fields plus one
triple per contributing catalog (the base catalog's entry first, then one
entry per accepted match, in catalog order). -/
structure Group where
  product_name : String
  brand : Option String
  size : Option String
  entries : List (Option String × Triple)
  deriving DecidableEq

/-- pandas equality semantics for catalog labels: NaN (here `Option.none`)
compares unequal to everything, itself included — this is the comparison used
by `df['retailer'] == r` and by `other_retailer == base_retailer`. -/
def eqPd (a b : Option String) : Bool :=
  match a, b with
  | some x, some y => x == y
  | _, _ => false

/-- `pandas.unique` on the retailer column: first-occurrence order, with all
NaN values collapsed to a single entry. -/
def dedupFirst (l : List (Option String)) : List (Option String) :=
  l.foldl (fun acc r => if acc.contains r then acc else acc ++ [r]) []

/-- `str(name)` for a product-name cell, as applied to the candidate names
(`[... str(name) for name in other_names]`): an absent name is stringified
rather than skipped. -/
def strOfName : Option String → String
  | Option.none => "None"
  | some s => s

/-- `rapidfuzz.process.extractOne(query, choices, scorer=fuzz.token_sort_ratio)`:
the best score and its index; on ties the earliest choice wins. -/
def extractOne (q : String) (choices : List String) : Option (ℚ × ℕ) :=
  choices.enum.foldl
    (fun best ic =>
      let s := token_sort_ratio q ic.2
      match best with
      | Option.none => some (s, ic.1)
      | some b => if b.1 < s then some (s, ic.1) else best)
    Option.none

/-- The group built for one base product `p` with truthy name `name`:
the base catalog's triple first, then — for every other catalog with a
nonempty slice — the best-matching product's triple when its score clears the
threshold.  No candidate is ever marked consumed. -/
def buildGroup (th : ℚ) (df : List Record) (retailers : List (Option String))
    (base : Option String) (name : String) (p : Record) : Group :=
  let baseNorm := normalize_product_name name
  let attach := (retailers.filter (fun r => !eqPd r base)).filterMap (fun r =>
    let ops := df.filter (fun x => eqPd x.retailer r)
    if ops.isEmpty then Option.none
    else
      let normed := ops.map (fun o => normalize_product_name (strOfName o.product_name))
      match extractOne baseNorm normed with
      | Option.none => Option.none
      | some si =>
        if th ≤ si.1 then
          match ops.drop si.2 with
          | m :: _ => some (r, ⟨m.price, m.price_per_unit, m.product_url⟩)
          | [] => Option.none
        else Option.none)
  ⟨name, p.brand, p.size_weight_volume,
    (base, ⟨p.price, p.price_per_unit, p.product_url⟩) :: attach⟩

/-- `sum(1 for key in group if key.endswith('_price') and group[key] is not None)`:
the number of catalogs whose contributed price is not `None` — a NaN price
(an absent value in a numeric column) passes this test and is counted. -/
def priceCount (g : Group) : ℕ := g.entries.countP (fun e => e.2.price.isNotNone)

/-- `if not base_name: continue` — a product name takes part in matching only
when it is truthy (present and nonempty). -/
def truthyName : Option String → Option String
  | Option.none => Option.none
  | some s => if s.data.isEmpty then Option.none else some s

/-- The group emitted for one `(index, row)` pair of the base slice, or
`Option.none` when the row's name is falsy or the group covers fewer than two
priced catalogs. -/
def groupSelect (th : ℚ) (df : List Record) (retailers : List (Option String))
    (base : Option String) (ip : ℕ × Record) : Option Group :=
  (truthyName ip.2.product_name).bind (fun name =>
    let g := buildGroup th df retailers base name ip.2
    if 2 ≤ priceCount g then some g else Option.none)

/-- One iteration of the base-product loop, carrying
`(matched_base_indices, matched_groups)` exactly as the source does. -/
def matchStep (th : ℚ) (df : List Record) (retailers : List (Option String))
    (base : Option String) (st : List ℕ × List Group) (ip : ℕ × Record) :
    List ℕ × List Group :=
  if st.1.contains ip.1 then st
  else
    match groupSelect th df retailers base ip with
    | some g => (ip.1 :: st.1, st.2 ++ [g])
    | Option.none => st

/-- `df['retailer']` raises `KeyError` exactly when the column is absent — in
record terms, when no row carries a retailer. -/
def retailerColMissing (df : List Record) : Bool :=
  df.all (fun r => r.retailer.isNone)

/-- `DataProcessor.find_similar_products`.  Right after the `unique()` call
the source formats `', '.join(retailers)` into a log line; when the retailer
array holds a NaN label (a record lacking the key in a pool where others have
it) that join meets a non-string and raises `TypeError` before any matching.
The fold state models the `matched_base_indices` set; candidate rows of other
catalogs are never tracked. -/
def find_similar_products (th : ℚ) (df : List Record) : Except PyErr (List Group) :=
  if retailerColMissing df then .error PyErr.keyError
  else if (dedupFirst (df.map Record.retailer)).any (fun r => r.isNone) then
    .error PyErr.typeError
  else
    let retailers := dedupFirst (df.map Record.retailer)
    match retailers with
    | [] => .ok []
    | base :: _ =>
      let basePairs := df.enum.filter (fun ip => eqPd ip.2.retailer base)
      .ok (basePairs.foldl (matchStep th df retailers base) ([], [])).2

/-- Stateless characterization of the matcher's output: a plain `filterMap`
over the base slice, with no cross-iteration state at all. -/
def groupsOf (th : ℚ) (df : List Record) : List Group :=
  match dedupFirst (df.map Record.retailer) with
  | [] => []
  | base :: _ =>
    (df.enum.filter (fun ip => eqPd ip.2.retailer base)).filterMap
      (groupSelect th df (dedupFirst (df.map Record.retailer)) base)

/-- Like `groupSelect` but without the two-priced-catalogs retention test:
every base product with a truthy name yields its candidate group. -/
def candidateSelect (th : ℚ) (df : List Record) (retailers : List (Option String))
    (base : Option String) (ip : ℕ × Record) : Option Group :=
  (truthyName ip.2.product_name).map (fun name => buildGroup th df retailers base name ip.2)

/-- All candidate groups, before the retention test. -/
def candidateGroups (th : ℚ) (df : List Record) : List Group :=
  match dedupFirst (df.map Record.retailer) with
  | [] => []
  | base :: _ =>
    (df.enum.filter (fun ip => eqPd ip.2.retailer base)).filterMap
      (candidateSelect th df (dedupFirst (df.map Record.retailer)) base)

/-- Sort key of `comparison_df.sort_values('product_name')`. -/
def groupLe (g1 g2 : Group) : Prop := lexLe g1.product_name.data g2.product_name.data = true

instance : DecidableRel groupLe :=
  fun g1 g2 => instDecidableEqBool (lexLe g1.product_name.data g2.product_name.data) true

/-- `DataProcessor.create_comparison_table`: nothing is produced for an empty
frame or when no group matches (`.ok Option.none`); otherwise the groups are
sorted by product name and exported (`.ok (some table)`). -/
def create_comparison_table (th : ℚ) (df : List Record) :
    Except PyErr (Option (List Group)) :=
  if df.isEmpty then .ok Option.none
  else
    match find_similar_products th df with
    | .error e => .error e
    | .ok gs =>
      if gs.isEmpty then .ok Option.none
      else .ok (some (List.insertionSort groupLe gs))

/-! ## Supporting lemmas -/

theorem charEq_of_toNat {a b : Char} (h : a.toNat = b.toNat) : a = b := by
  apply Char.ext
  apply UInt32.ext
  exact h

theorem takeWhile_all_append {α : Type} (p : α → Bool) :
    ∀ (pre : List α) (x : α) (post : List α), (∀ c ∈ pre, p c = true) → p x = false →
      (pre ++ x :: post).takeWhile p = pre ∧ (pre ++ x :: post).dropWhile p = x :: post := by
  intro pre
  induction pre with
  | nil =>
    intro x post _ hx
    simp [List.takeWhile, List.dropWhile, hx]
  | cons a t ih =>
    intro x post hall hx
    have ha : p a = true := hall a (by simp)
    have ht := ih x post (fun c hc => hall c (by simp [hc])) hx
    simp only [List.cons_append, List.takeWhile_cons, List.dropWhile_cons, ha, if_true]
    exact ⟨by rw [ht.1], by rw [ht.2]⟩

/-! ### Decimal rendering lemmas -/

/-! ### LCS lemmas -/

theorem lcsAux_symm : ∀ (fuel : ℕ) (x y : List Char), lcsAux fuel x y = lcsAux fuel y x := by
  intro fuel
  induction fuel with
  | zero => intro x y; simp [lcsAux]
  | succ f ih =>
    intro x y
    cases x with
    | nil => cases y <;> simp [lcsAux]
    | cons a as =>
      cases y with
      | nil => simp [lcsAux]
      | cons b bs =>
        simp only [lcsAux]
        by_cases hab : a = b
        · subst hab
          simp [ih]
        · have hba : ¬b = a := fun h => hab h.symm
          simp only [if_neg hab, if_neg hba]
          rw [ih as (b :: bs), ih (a :: as) bs, Nat.max_comm]

theorem lcsAux_self : ∀ (fuel : ℕ) (l : List Char), l.length ≤ fuel →
    lcsAux fuel l l = l.length := by
  intro fuel
  induction fuel with
  | zero =>
    intro l h
    have : l = [] := List.length_eq_zero.mp (by omega)
    subst this
    simp [lcsAux]
  | succ f ih =>
    intro l h
    cases l with
    | nil => simp [lcsAux]
    | cons a as =>
      have has : as.length ≤ f := by simp at h; omega
      simp [lcsAux, ih as has]

/-! ### Lexicographic order lemmas -/

theorem lexLe_total : ∀ a b : List Char, lexR a b ∨ lexR b a := by
  intro a
  induction a with
  | nil => intro b; left; rfl
  | cons x as ih =>
    intro b
    cases b with
    | nil => right; rfl
    | cons y bs =>
      rcases Nat.lt_trichotomy x.toNat y.toNat with h | h | h
      · left; simp [lexR, lexLe, h]
      · have hxy : x = y := charEq_of_toNat h
        subst hxy
        rcases ih bs with h' | h'
        · left; simp [lexR, lexLe]; exact h'
        · right; simp [lexR, lexLe]; exact h'
      · right; simp [lexR, lexLe, h]

theorem lexLe_trans : ∀ a b c : List Char, lexR a b → lexR b c → lexR a c := by
  intro a
  induction a with
  | nil => intro b c _ _; rfl
  | cons x as ih =>
    intro b c hab hbc
    cases b with
    | nil => simp [lexR, lexLe] at hab
    | cons y bs =>
      cases c with
      | nil => simp [lexR, lexLe] at hbc
      | cons z cs =>
        simp only [lexR, lexLe] at hab hbc ⊢
        rcases Nat.lt_trichotomy x.toNat y.toNat with h1 | h1 | h1
        · rcases Nat.lt_trichotomy y.toNat z.toNat with h2 | h2 | h2
          · simp [Nat.lt_trans h1 h2]
          · simp [h2 ▸ h1]
          · simp [h2, Nat.lt_asymm h2] at hbc
        · have hxy : x = y := charEq_of_toNat h1
          subst hxy
          rcases Nat.lt_trichotomy x.toNat z.toNat with h2 | h2 | h2
          · simp [h2]
          · have hxz : x = z := charEq_of_toNat h2
            subst hxz
            simp only [Nat.lt_irrefl, if_false] at hab hbc ⊢
            exact ih bs cs hab hbc
          · simp [h2, Nat.lt_asymm h2] at hbc
        · simp [h1, Nat.lt_asymm h1] at hab

theorem lexLe_antisymm : ∀ a b : List Char, lexR a b → lexR b a → a = b := by
  intro a
  induction a with
  | nil =>
    intro b _ hba
    cases b with
    | nil => rfl
    | cons y bs => simp [lexR, lexLe] at hba
  | cons x as ih =>
    intro b hab hba
    cases b with
    | nil => simp [lexR, lexLe] at hab
    | cons y bs =>
      simp only [lexR, lexLe] at hab hba
      rcases Nat.lt_trichotomy x.toNat y.toNat with h | h | h
      · simp [h, Nat.lt_asymm h] at hba
      · have hxy : x = y := charEq_of_toNat h
        subst hxy
        simp only [Nat.lt_irrefl, if_false] at hab hba
        rw [ih bs hab hba]
      · simp [h, Nat.lt_asymm h] at hab

instance : IsTotal (List Char) lexR := ⟨lexLe_total⟩

instance : IsTrans (List Char) lexR := ⟨lexLe_trans⟩

instance : IsAntisymm (List Char) lexR := ⟨lexLe_antisymm⟩

theorem insertionSort_lexR_eq_of_perm {l1 l2 : List (List Char)} (h : l1.Perm l2) :
    List.insertionSort lexR l1 = List.insertionSort lexR l2 :=
  List.eq_of_perm_of_sorted
    ((List.perm_insertionSort lexR l1).trans (h.trans (List.perm_insertionSort lexR l2).symm))
    (List.sorted_insertionSort lexR l1) (List.sorted_insertionSort lexR l2)

/-! ### `clean_text` lemmas -/

theorem mem_collapseAux_space :
    ∀ (l : List Char) (b : Bool) (c : Char), c ∈ collapseAux b l → isPySpace c = true → c = ' ' := by
  intro l
  induction l with
  | nil => intro b c hc; simp [collapseAux] at hc
  | cons a t ih =>
    intro b c hc hsp
    by_cases ha : isPySpace a = true
    · cases b with
      | true =>
        simp only [collapseAux, ha, if_true] at hc
        exact ih true c hc hsp
      | false =>
        simp only [collapseAux, ha, if_true, if_false, Bool.false_eq_true, List.mem_cons] at hc
        rcases hc with hc | hc
        · exact hc
        · exact ih true c hc hsp
    · simp only [collapseAux, ha, if_false, Bool.false_eq_true, List.mem_cons] at hc
      rcases hc with hc | hc
      · subst hc; rw [hsp] at ha; contradiction
      · exact ih false c hc hsp

theorem mem_pyStrip {l : List Char} {c : Char} (h : c ∈ pyStrip l) : c ∈ l := by
  unfold pyStrip at h
  rw [List.mem_reverse] at h
  have h2 := (List.dropWhile_sublist isPySpace).mem h
  rw [List.mem_reverse] at h2
  exact (List.dropWhile_sublist isPySpace).mem h2

/-! ### Scorer lemmas -/

theorem mkRat_hundred_mul {k : ℕ} (hk : k ≠ 0) : mkRat (100 * (k : ℤ)) k = 100 := by
  rw [Rat.mkRat_eq_div]
  push_cast
  rw [mul_div_assoc, div_self (by exact_mod_cast hk), mul_one]

theorem lcsLen_symm (x y : List Char) : lcsLen x y = lcsLen y x := by
  unfold lcsLen
  rw [Nat.add_comm y.length x.length, lcsAux_symm]

theorem lcsLen_self (l : List Char) : lcsLen l l = l.length :=
  lcsAux_self (l.length + l.length) l (by omega)

theorem token_sort_ratio_symm (a b : String) :
    token_sort_ratio a b = token_sort_ratio b a := by
  unfold token_sort_ratio
  rw [Nat.add_comm (sortedJoin b).length (sortedJoin a).length, lcsLen_symm]

theorem token_sort_ratio_self (a : String) : token_sort_ratio a a = 100 := by
  unfold token_sort_ratio
  by_cases h : (sortedJoin a).length + (sortedJoin a).length = 0
  · simp [h]
  · simp only [h, if_false]
    rw [lcsLen_self]
    have h2 : (200 : ℤ) * ((sortedJoin a).length : ℤ) =
        100 * (((sortedJoin a).length + (sortedJoin a).length : ℕ) : ℤ) := by
      push_cast; ring
    rw [h2, mkRat_hundred_mul h]

theorem sortedJoin_eq_of_perm {a a' : String} (h : (tokens a').Perm (tokens a)) :
    sortedJoin a' = sortedJoin a := by
  unfold sortedJoin
  rw [insertionSort_lexR_eq_of_perm h]

theorem token_sort_ratio_congr_left {a a' : String} (b : String)
    (h : (tokens a').Perm (tokens a)) :
    token_sort_ratio a' b = token_sort_ratio a b := by
  unfold token_sort_ratio
  rw [sortedJoin_eq_of_perm h]

/-! ### Declarative reading of the price regular expression

`PriceTokAt l i m` says: the pattern *digits, one of `.`/`,`, exactly two
digits* matches at position `i` of `l` with matched text `m` (the digit run
taken greedily — any digit run followed by a separator is automatically the
maximal one, since a separator is not a digit). -/

def PriceTokAt (l : List Char) (i : ℕ) (m : List Char) : Prop :=
  ∃ ds sep d1 d2 rest, m = ds ++ [sep, d1, d2] ∧ ds ≠ [] ∧
    (∀ c ∈ ds, pyIsDigit c = true) ∧ (sep = '.' ∨ sep = ',') ∧
    pyIsDigit d1 = true ∧ pyIsDigit d2 = true ∧ l.drop i = m ++ rest

theorem sep_not_digit {sep : Char} (h : sep = '.' ∨ sep = ',') : pyIsDigit sep = false := by
  rcases h with h | h <;> subst h <;> decide

theorem priceTokAt_some_iff (l : List Char) (m : List Char) :
    priceTokAt l = some m ↔ PriceTokAt l 0 m := by
  constructor
  · intro h
    unfold priceTokAt at h
    by_cases hds : (l.takeWhile pyIsDigit).isEmpty
    · simp [hds] at h
    · simp only [hds, Bool.false_eq_true, if_false] at h
      cases hdrop : l.dropWhile pyIsDigit with
      | nil => rw [hdrop] at h; simp at h
      | cons sep rest1 =>
        cases rest1 with
        | nil => rw [hdrop] at h; simp at h
        | cons d1 rest2 =>
          cases rest2 with
          | nil => rw [hdrop] at h; simp at h
          | cons d2 rest =>
            rw [hdrop] at h
            by_cases hcond : ((sep == '.' || sep == ',') && pyIsDigit d1 && pyIsDigit d2) = true
            · simp only [hcond, if_true] at h
              injection h with h
              refine ⟨l.takeWhile pyIsDigit, sep, d1, d2, rest, h.symm, ?_, ?_, ?_, ?_, ?_, ?_⟩
              · simpa [List.isEmpty_iff] using hds
              · intro c hc; exact List.mem_takeWhile_imp hc
              · have h1 : (sep == '.' || sep == ',') = true := by
                  simp only [Bool.and_eq_true] at hcond; exact hcond.1.1
                rcases Bool.or_eq_true_iff.mp h1 with h2 | h2
                · left; exact beq_iff_eq.mp h2
                · right; exact beq_iff_eq.mp h2
              · simp only [Bool.and_eq_true] at hcond; exact hcond.1.2
              · simp only [Bool.and_eq_true] at hcond; exact hcond.2
              · rw [List.drop_zero, ← List.takeWhile_append_dropWhile pyIsDigit l, hdrop, ← h]
                simp
            · simp [hcond] at h
  · rintro ⟨ds, sep, d1, d2, rest, hm, hne, hdig, hsep, hd1, hd2, hdr⟩
    rw [List.drop_zero] at hdr
    have hsplit := takeWhile_all_append pyIsDigit ds sep (d1 :: d2 :: rest) hdig
      (sep_not_digit hsep)
    have hl : l = ds ++ sep :: d1 :: d2 :: rest := by rw [hdr, hm]; simp
    unfold priceTokAt
    rw [hl, hsplit.1, hsplit.2]
    have hsepb : (sep == '.' || sep == ',') = true := by
      rcases hsep with h | h <;> subst h <;> decide
    simp [List.isEmpty_iff, hne, hsepb, hd1, hd2, hm]

theorem priceTokAt_none_iff (l : List Char) :
    priceTokAt l = Option.none ↔ ∀ m, ¬PriceTokAt l 0 m := by
  constructor
  · intro h m hm
    rw [(priceTokAt_some_iff l m).mpr hm] at h
    exact Option.noConfusion h
  · intro h
    cases heq : priceTokAt l with
    | none => rfl
    | some m => exact absurd ((priceTokAt_some_iff l m).mp heq) (h m)

theorem PriceTokAt_succ (c : Char) (l : List Char) (j : ℕ) (m : List Char) :
    PriceTokAt (c :: l) (j + 1) m ↔ PriceTokAt l j m := by
  unfold PriceTokAt
  rw [List.drop_succ_cons]

theorem PriceTokAt_nil (i : ℕ) (m : List Char) : ¬PriceTokAt [] i m := by
  rintro ⟨ds, sep, d1, d2, rest, hm, hne, -, -, -, -, hdr⟩
  rw [List.drop_nil] at hdr
  have := List.append_eq_nil.mp hdr.symm
  rw [hm] at this
  exact absurd (List.append_eq_nil.mp this.1).1 hne

theorem priceSearch_some_iff :
    ∀ (l : List Char) (m : List Char), priceSearch l = some m ↔
      ∃ i, PriceTokAt l i m ∧ ∀ j m', PriceTokAt l j m' → i ≤ j := by
  intro l
  induction l with
  | nil =>
    intro m
    constructor
    · intro h; exact absurd h (by simp [priceSearch])
    · rintro ⟨i, hi, -⟩; exact absurd hi (PriceTokAt_nil i m)
  | cons c cs ih =>
    intro m
    cases h0 : priceTokAt (c :: cs) with
    | some m0 =>
      simp only [priceSearch, h0]
      constructor
      · intro h
        have hm : m0 = m := by injection h
        subst hm
        exact ⟨0, (priceTokAt_some_iff _ _).mp h0, fun j m' _ => Nat.zero_le j⟩
      · rintro ⟨i, hTok, hMin⟩
        have hi0 : i = 0 :=
          Nat.le_zero.mp (hMin 0 m0 ((priceTokAt_some_iff _ _).mp h0))
        subst hi0
        have := (priceTokAt_some_iff _ _).mpr hTok
        rw [h0] at this
        injection this with this
        rw [this]
    | none =>
      simp only [priceSearch, h0]
      rw [ih m]
      constructor
      · rintro ⟨i', hTok, hMin⟩
        refine ⟨i' + 1, (PriceTokAt_succ c cs i' m).mpr hTok, ?_⟩
        intro j m' hj
        cases j with
        | zero => exact absurd hj ((priceTokAt_none_iff _).mp h0 m')
        | succ j' =>
          exact Nat.succ_le_succ (hMin j' m' ((PriceTokAt_succ c cs j' m').mp hj))
      · rintro ⟨i, hTok, hMin⟩
        cases i with
        | zero => exact absurd hTok ((priceTokAt_none_iff _).mp h0 m)
        | succ i' =>
          refine ⟨i', (PriceTokAt_succ c cs i' m).mp hTok, ?_⟩
          intro j m' hj
          have := hMin (j + 1) m' ((PriceTokAt_succ c cs j m').mpr hj)
          omega

/-! ### Declarative reading of the number-plus-unit regular expression -/

/-- Well-formed optional fractional part `(?:[.,]\d+)?`. -/
def FracOk (fr : List Char) : Prop :=
  fr = [] ∨ ∃ sep fd, fr = sep :: fd ∧ (sep = '.' ∨ sep = ',') ∧ fd ≠ [] ∧
    ∀ c ∈ fd, pyIsDigit c = true

/-- `(\d+(?:[.,]\d+)?)\s*([a-z]+)` matches at position `i` of `l`. -/
def NumUnitAt (l : List Char) (i : ℕ) : Prop :=
  ∃ ds fr sp us rest, l.drop i = ds ++ fr ++ sp ++ us ++ rest ∧ ds ≠ [] ∧
    (∀ c ∈ ds, pyIsDigit c = true) ∧ FracOk fr ∧
    (∀ c ∈ sp, isPySpace c = true) ∧ us ≠ [] ∧ ∀ c ∈ us, isLowerAlpha c = true

theorem not_digit_of_space {x : Char} (h : isPySpace x = true) : pyIsDigit x = false := by
  simp only [isPySpace, Bool.or_eq_true, beq_iff_eq] at h
  rcases h with ((((h | h) | h) | h) | h) | h <;> subst h <;> decide

theorem not_sep_of_space {x : Char} (h : isPySpace x = true) :
    (x == '.' || x == ',') = false := by
  simp only [isPySpace, Bool.or_eq_true, beq_iff_eq] at h
  rcases h with ((((h | h) | h) | h) | h) | h <;> subst h <;> decide

theorem lowerAlpha_toNat {x : Char} (h : isLowerAlpha x = true) :
    97 ≤ x.toNat ∧ x.toNat ≤ 122 := by
  simpa [isLowerAlpha, Bool.and_eq_true, decide_eq_true_eq] using h

theorem not_digit_of_letter {x : Char} (h : isLowerAlpha x = true) : pyIsDigit x = false := by
  have hx := lowerAlpha_toNat h
  simp only [pyIsDigit, Bool.and_eq_false_iff, decide_eq_false_iff_not]
  right
  omega

theorem not_sep_of_letter {x : Char} (h : isLowerAlpha x = true) :
    (x == '.' || x == ',') = false := by
  have hx := lowerAlpha_toNat h
  simp only [Bool.or_eq_false_iff, beq_eq_false_iff_ne]
  constructor <;> rintro rfl <;> simp_all

theorem not_space_of_letter {x : Char} (h : isLowerAlpha x = true) : isPySpace x = false := by
  have hx := lowerAlpha_toNat h
  simp only [isPySpace, Bool.or_eq_false_iff, beq_eq_false_iff_ne]
  refine ⟨⟨⟨⟨⟨?_, ?_⟩, ?_⟩, ?_⟩, ?_⟩, ?_⟩ <;> rintro rfl <;> simp_all

/-- Facts about the tail `sp ++ (us ++ rest)` of a declarative match: how the
whitespace and letter scanners traverse it, and the shape of its head. -/
theorem tailFacts (sp us rest : List Char) (hsp : ∀ c ∈ sp, isPySpace c = true)
    (hus : us ≠ []) (hlet : ∀ c ∈ us, isLowerAlpha c = true) :
    ((sp ++ (us ++ rest)).dropWhile isPySpace = us ++ rest ∧
      ((us ++ rest).takeWhile isLowerAlpha).isEmpty = false) ∧
    ∃ x t, sp ++ (us ++ rest) = x :: t ∧ pyIsDigit x = false ∧
      (x == '.' || x == ',') = false := by
  obtain ⟨u, ut, rfl⟩ := List.exists_cons_of_ne_nil hus
  have hu : isLowerAlpha u = true := hlet u (by simp)
  constructor
  · constructor
    · have := takeWhile_all_append isPySpace sp u (ut ++ rest) hsp (not_space_of_letter hu)
      simpa using this.2
    · rw [List.cons_append, List.takeWhile_cons_of_pos hu]
      simp
  · cases sp with
    | nil =>
      exact ⟨u, ut ++ rest, by simp, not_digit_of_letter hu, not_sep_of_letter hu⟩
    | cons s st =>
      have hs : isPySpace s = true := hsp s (by simp)
      exact ⟨s, st ++ (u :: ut ++ rest), by simp, not_digit_of_space hs, not_sep_of_space hs⟩

theorem isEmpty_false_of_ne_nil {α : Type} {l : List α} (h : l ≠ []) : l.isEmpty = false := by
  cases l with
  | nil => exact absurd rfl h
  | cons a t => rfl

theorem numUnitAtHead_isSome_iff (l : List Char) :
    (numUnitAtHead l).isSome = true ↔ NumUnitAt l 0 := by
  constructor
  · intro h
    unfold numUnitAtHead at h
    by_cases hds : (l.takeWhile pyIsDigit).isEmpty
    · simp [hds] at h
    · simp only [hds, Bool.false_eq_true, if_false] at h
      have hdsne : l.takeWhile pyIsDigit ≠ [] := by simpa [List.isEmpty_iff] using hds
      have hdsdig : ∀ c ∈ l.takeWhile pyIsDigit, pyIsDigit c = true :=
        fun c hc => List.mem_takeWhile_imp hc
      cases hr1 : l.dropWhile pyIsDigit with
      | nil =>
        rw [hr1] at h
        simp at h
      | cons sep tail =>
        rw [hr1] at h
        by_cases hc : ((sep == '.' || sep == ',') && !(tail.takeWhile pyIsDigit).isEmpty) = true
        · simp only [hc, if_true] at h
          by_cases hus : (((tail.dropWhile pyIsDigit).dropWhile isPySpace).takeWhile
              isLowerAlpha).isEmpty
          · simp [hus] at h
          · refine ⟨l.takeWhile pyIsDigit, sep :: tail.takeWhile pyIsDigit,
              (tail.dropWhile pyIsDigit).takeWhile isPySpace,
              ((tail.dropWhile pyIsDigit).dropWhile isPySpace).takeWhile isLowerAlpha,
              ((tail.dropWhile pyIsDigit).dropWhile isPySpace).dropWhile isLowerAlpha,
              ?_, hdsne, hdsdig, ?_, ?_, ?_, ?_⟩
            · simp [List.append_assoc, List.cons_append,
                List.takeWhile_append_dropWhile, ← hr1]
            · right
              simp only [Bool.and_eq_true, Bool.or_eq_true, beq_iff_eq,
                Bool.not_eq_true'] at hc
              refine ⟨sep, tail.takeWhile pyIsDigit, rfl, hc.1, ?_, ?_⟩
              · simpa [List.isEmpty_iff] using hc.2
              · exact fun c hcm => List.mem_takeWhile_imp hcm
            · exact fun c hcm => List.mem_takeWhile_imp hcm
            · simpa [List.isEmpty_iff] using hus
            · exact fun c hcm => List.mem_takeWhile_imp hcm
        · simp only [hc, Bool.false_eq_true, if_false] at h
          by_cases hus : (((sep :: tail).dropWhile isPySpace).takeWhile isLowerAlpha).isEmpty
          · simp [hus] at h
          · refine ⟨l.takeWhile pyIsDigit, [],
              (sep :: tail).takeWhile isPySpace,
              ((sep :: tail).dropWhile isPySpace).takeWhile isLowerAlpha,
              ((sep :: tail).dropWhile isPySpace).dropWhile isLowerAlpha,
              ?_, hdsne, hdsdig, Or.inl rfl, ?_, ?_, ?_⟩
            · simp [List.append_assoc, List.takeWhile_append_dropWhile, ← hr1]
            · exact fun c hcm => List.mem_takeWhile_imp hcm
            · simpa [List.isEmpty_iff] using hus
            · exact fun c hcm => List.mem_takeWhile_imp hcm
  · rintro ⟨ds, fr, sp, us, rest, heq, hds, hdig, hfr, hsp, hus, hlet⟩
    rw [List.drop_zero] at heq
    obtain ⟨⟨hdw, htw⟩, x, t, hxt, hxd, hxs⟩ := tailFacts sp us rest hsp hus hlet
    have hdsE : ds.isEmpty = false := isEmpty_false_of_ne_nil hds
    rcases hfr with hfr | ⟨sep, fd, hfrEq, hsep, hfd, hfddig⟩
    · subst hfr
      have heq2 : l = ds ++ x :: t := by
        rw [heq, List.append_nil, List.append_assoc, List.append_assoc, ← hxt]
      have hsplit := takeWhile_all_append pyIsDigit ds x t hdig hxd
      rw [← heq2] at hsplit
      have hxsep : ((x == '.' || x == ',') && !(t.takeWhile pyIsDigit).isEmpty) = false := by
        rw [hxs]
        rfl
      unfold numUnitAtHead
      rw [hsplit.1, hsplit.2]
      simp only [hdsE, Bool.false_eq_true, if_false, hxsep]
      rw [← hxt, hdw, htw]
      rfl
    · subst hfrEq
      have heq2 : l = ds ++ sep :: (fd ++ x :: t) := by
        rw [heq]
        simp only [List.cons_append, List.append_assoc, List.cons_append]
        rw [← hxt]
      have hsplit := takeWhile_all_append pyIsDigit ds sep (fd ++ x :: t) hdig
        (sep_not_digit hsep)
      rw [← heq2] at hsplit
      have hsplit2 := takeWhile_all_append pyIsDigit fd x t hfddig hxd
      have hsepb : (sep == '.' || sep == ',') = true := by
        rcases hsep with h | h <;> subst h <;> decide
      have hfdE : fd.isEmpty = false := isEmpty_false_of_ne_nil hfd
      unfold numUnitAtHead
      rw [hsplit.1, hsplit.2]
      simp only [hdsE, Bool.false_eq_true, if_false, hsplit2.1, hsplit2.2, hsepb, hfdE,
        Bool.not_false, Bool.true_and, if_true]
      rw [← hxt, hdw, htw]
      rfl

theorem NumUnitAt_nil (i : ℕ) : ¬NumUnitAt [] i := by
  rintro ⟨ds, fr, sp, us, rest, heq, hds, -, -, -, -, -⟩
  rw [List.drop_nil] at heq
  have h := heq.symm
  simp only [List.append_eq_nil] at h
  exact hds h.1.1.1.1

theorem NumUnitAt_succ (c : Char) (l : List Char) (j : ℕ) :
    NumUnitAt (c :: l) (j + 1) ↔ NumUnitAt l j := by
  unfold NumUnitAt
  rw [List.drop_succ_cons]

theorem numUnitSearch_isSome_iff :
    ∀ l : List Char, (numUnitSearch l).isSome = true ↔ ∃ i, NumUnitAt l i := by
  intro l
  induction l with
  | nil =>
    constructor
    · intro h; simp [numUnitSearch] at h
    · rintro ⟨i, hi⟩; exact absurd hi (NumUnitAt_nil i)
  | cons c cs ih =>
    cases h0 : numUnitAtHead (c :: cs) with
    | some r0 =>
      simp only [numUnitSearch, h0, Option.isSome_some, true_iff]
      exact ⟨0, (numUnitAtHead_isSome_iff (c :: cs)).mp (by rw [h0]; rfl)⟩
    | none =>
      simp only [numUnitSearch, h0]
      rw [ih]
      constructor
      · rintro ⟨i, hi⟩
        exact ⟨i + 1, (NumUnitAt_succ c cs i).mpr hi⟩
      · rintro ⟨i, hi⟩
        cases i with
        | zero =>
          have := (numUnitAtHead_isSome_iff (c :: cs)).mpr hi
          rw [h0] at this
          simp at this
        | succ i' => exact ⟨i', (NumUnitAt_succ c cs i').mp hi⟩

/-! ### Matcher structure lemmas -/

theorem enum_pairwise_ne {α : Type} (l : List α) :
    l.enum.Pairwise (fun a b => a.1 ≠ b.1) := by
  have h := List.pairwise_lt_range l.length
  rw [← List.enum_map_fst l] at h
  exact (List.pairwise_map.mp h).imp (fun hlt => Nat.ne_of_lt hlt)

theorem foldl_matchStep (th : ℚ) (df : List Record) (retailers : List (Option String))
    (base : Option String) :
    ∀ (l : List (ℕ × Record)) (cons : List ℕ) (acc : List Group),
      l.Pairwise (fun a b => a.1 ≠ b.1) →
      (∀ ip ∈ l, cons.contains ip.1 = false) →
      (l.foldl (matchStep th df retailers base) (cons, acc)).2 =
        acc ++ l.filterMap (groupSelect th df retailers base) := by
  intro l
  induction l with
  | nil => intro cons acc _ _; simp
  | cons ip tl ih =>
    intro cons acc hpw hcons
    have hip : cons.contains ip.1 = false := hcons ip (by simp)
    rw [List.foldl_cons]
    rw [List.pairwise_cons] at hpw
    cases hsel : groupSelect th df retailers base ip with
    | some g =>
      have hstep : matchStep th df retailers base (cons, acc) ip =
          (ip.1 :: cons, acc ++ [g]) := by
        unfold matchStep
        rw [hip, hsel]
        rfl
      rw [hstep, ih (ip.1 :: cons) (acc ++ [g]) hpw.2 ?_, List.filterMap_cons, hsel]
      · simp
      · intro jp hjp
        have hne : ip.1 ≠ jp.1 := hpw.1 jp hjp
        have hjc : cons.contains jp.1 = false := hcons jp (by simp [hjp])
        simp only [List.contains_cons, Bool.or_eq_false_iff]
        exact ⟨by simpa [beq_eq_false_iff_ne] using fun h => hne h.symm, hjc⟩
    | none =>
      have hstep : matchStep th df retailers base (cons, acc) ip = (cons, acc) := by
        unfold matchStep
        rw [hip, hsel]
        rfl
      rw [hstep, ih cons acc hpw.2 (fun jp hjp => hcons jp (by simp [hjp])),
        List.filterMap_cons, hsel]

/-- On the non-erroring path the matcher is stateless: its fold over
`matched_base_indices` computes a plain `filterMap`, since the visited base
indices are pairwise distinct and the consumed-set check never fires. -/
theorem find_eq_groupsOf (th : ℚ) (df : List Record) :
    find_similar_products th df =
      if retailerColMissing df then Except.error PyErr.keyError
      else if (dedupFirst (df.map Record.retailer)).any (fun r => r.isNone) then
        Except.error PyErr.typeError
      else Except.ok (groupsOf th df) := by
  unfold find_similar_products groupsOf
  by_cases hmiss : retailerColMissing df
  · simp [hmiss]
  · simp only [hmiss, Bool.false_eq_true, if_false]
    by_cases hnan : ((dedupFirst (df.map Record.retailer)).any (fun r => r.isNone)) = true
    · simp [hnan]
    · simp only [hnan, Bool.false_eq_true, if_false]
      cases hr : dedupFirst (df.map Record.retailer) with
      | nil => rfl
      | cons base rest =>
        have hpw : (df.enum.filter (fun ip => eqPd ip.2.retailer base)).Pairwise
            (fun a b => a.1 ≠ b.1) :=
          (enum_pairwise_ne df).filter _
        dsimp only
        rw [foldl_matchStep th df (base :: rest) base _ [] [] hpw
          (fun ip _ => by rfl)]
        rfl

theorem filterMap_guard {α β : Type} (f : α → Option β) (p : β → Bool) :
    ∀ l : List α,
      (l.filterMap (fun x => (f x).bind (fun g => if p g then some g else Option.none))) =
        (l.filterMap f).filter p := by
  intro l
  induction l with
  | nil => simp
  | cons a t ih =>
    rw [List.filterMap_cons, List.filterMap_cons]
    cases hf : f a with
    | none => simpa using ih
    | some g =>
      by_cases hp : p g = true
      · simp only [hf, hp, Option.some_bind, if_true, List.filter_cons, hp]
        rw [ih]
      · simp only [hf, Option.some_bind, hp, Bool.false_eq_true, if_false, List.filter_cons]
        rw [ih]

theorem groupSelect_eq_guard (th : ℚ) (df : List Record)
    (retailers : List (Option String)) (base : Option String) (ip : ℕ × Record) :
    groupSelect th df retailers base ip =
      (candidateSelect th df retailers base ip).bind
        (fun g => if (2 ≤ priceCount g : Bool) then some g else Option.none) := by
  cases htn : truthyName ip.2.product_name with
  | none => simp [groupSelect, candidateSelect, htn]
  | some name => simp [groupSelect, candidateSelect, htn]

/-- Retained groups are exactly the candidate groups whose priced-catalog
count reaches 2. -/
theorem groupsOf_eq_filter (th : ℚ) (df : List Record) :
    groupsOf th df = (candidateGroups th df).filter (fun g => 2 ≤ priceCount g) := by
  unfold groupsOf candidateGroups
  cases hr : dedupFirst (df.map Record.retailer) with
  | nil => rfl
  | cons base rest =>
    dsimp only
    rw [← filterMap_guard (candidateSelect th df (base :: rest) base)
      (fun g => 2 ≤ priceCount g)]
    apply List.filterMap_congr
    intro ip _
    exact groupSelect_eq_guard th df (base :: rest) base ip

/-! ### `clean_text` characterizations -/

theorem pyStrip_nil : pyStrip [] = [] := rfl

theorem clean_text_eq_none_iff (s : String) :
    clean_text (some s) = Option.none ↔
      ∀ c ∈ pyStrip (collapseWs s.data), keptChar c = false := by
  by_cases hse : s.data.isEmpty
  · have hdata : s.data = [] := List.isEmpty_iff.mp hse
    simp [clean_text, hse, hdata, collapseWs, collapseAux, pyStrip_nil]
  · simp only [clean_text, hse, Bool.false_eq_true, if_false]
    by_cases h3 : (((pyStrip (collapseWs s.data)).filter keptChar).map dashFix).isEmpty
    · simp only [h3, if_true, true_iff]
      rw [List.isEmpty_iff, List.map_eq_nil_iff, List.filter_eq_nil_iff] at h3
      intro c hc
      simpa using h3 c hc
    · simp only [h3, Bool.false_eq_true, if_false]
      rw [List.isEmpty_iff, List.map_eq_nil_iff, List.filter_eq_nil_iff] at h3
      push_neg at h3
      obtain ⟨c, hc, hkept⟩ := h3
      constructor
      · intro habs
        exact absurd habs (by simp)
      · intro hall
        rw [hall c hc] at hkept
        simp at hkept

theorem clean_text_some_data {s t : String} (h : clean_text (some s) = some t) :
    t.data = ((pyStrip (collapseWs s.data)).filter keptChar).map dashFix := by
  by_cases hse : s.data.isEmpty
  · simp [clean_text, hse] at h
  · simp only [clean_text, hse, Bool.false_eq_true, if_false] at h
    by_cases h3 : (((pyStrip (collapseWs s.data)).filter keptChar).map dashFix).isEmpty
    · simp [h3] at h
    · simp only [h3, Bool.false_eq_true, if_false] at h
      injection h with h
      rw [← h]

/-! ### Re-parsing exact two-decimal numerals (for idempotence analysis) -/

theorem dot_not_digit : pyIsDigit '.' = false := by decide

theorem priceSearch_cons_eq (l : List Char) (hl : l ≠ []) (m : List Char)
    (h : priceTokAt l = some m) : priceSearch l = some m := by
  obtain ⟨x, t, rfl⟩ := List.exists_cons_of_ne_nil hl
  simp only [priceSearch, h]

theorem centsOfTok_exact (ds : List Char) (d1 d2 : Char)
    (hdig : ∀ c ∈ ds, pyIsDigit c = true) :
    centsOfTok (ds ++ ['.', d1, d2]) =
      digitsToNat ds * 100 + digitVal d1 * 10 + digitVal d2 := by
  have hsplit := takeWhile_all_append pyIsDigit ds '.' [d1, d2] hdig dot_not_digit
  unfold centsOfTok
  rw [hsplit.1, hsplit.2]

/-! ### `normalize_product_data` projections -/

theorem normalize_product_data_name {p : RawRecord} {out : NormRecord}
    (h : normalize_product_data p = .ok out) :
    out.product_name = clean_text p.product_name := by
  unfold normalize_product_data at h
  cases hbr : normalize_brand (clean_text p.brand) with
  | error e => rw [hbr] at h; exact Except.noConfusion h
  | ok br =>
    rw [hbr] at h
    cases hu : sizeUnitOf p.size_weight_volume with
    | error e => rw [hu] at h; exact Except.noConfusion h
    | ok u =>
      rw [hu] at h
      injection h with h
      rw [← h]

theorem PriceTokAt_iff_drop (l : List Char) (j : ℕ) (m : List Char) :
    PriceTokAt l j m ↔ PriceTokAt (l.drop j) 0 m := by
  unfold PriceTokAt
  simp only [List.drop_zero]

/-! ## Claims -/

/-- The character class the spec asserts for `clean_text` output: word
characters, whitespace, and `. , - ( ) & /` (en/em dashes excluded — they are
rewritten to `-`). -/
def keptOut (c : Char) : Bool :=
  isWordChar c || isPySpace c || c == '.' || c == ',' || c == '-' ||
    c == '(' || c == ')' || c == '&' || c == '/'

/-- Claim C1: the claim states every FieldNormalizer function is total and
never raises.  The code contradicts it: `parse_size_weight_volume` reads the
undefined class attribute `DataNormalizer.WEIGHT_UNITS` whenever the
number-plus-unit pattern matches (e.g. on `"500g"`), and `normalize_brand`
calls `.split()` on `None` when the brand cleans to empty (e.g. `"%%%"`);
both raise `AttributeError`. -/
theorem claim_C1_thm :
    parse_size_weight_volume (some "500g") = .error PyErr.attributeError ∧
      normalize_brand (some "%%%") = .error PyErr.attributeError := by
  constructor <;> decide

/-- Claim C2 counterexample: the claim states
`parse_weight_volume("1.5kg") = 1500` and `parse_weight_volume("500ml") = 500`;
the source's `parse_size_weight_volume` instead raises `AttributeError` on
both inputs (undefined `WEIGHT_UNITS`), and no unit conversion exists anywhere
in the source. -/
theorem claim_C2_counterexample :
    parse_size_weight_volume (some "1.5kg") = .error PyErr.attributeError ∧
      parse_size_weight_volume (some "500ml") = .error PyErr.attributeError := by
  constructor <;> decide

/-- Claim C2 (amended): `parse_size_weight_volume` raises `AttributeError`
exactly when the pattern *number, optional fractional part, optional
whitespace, letter run* matches somewhere in the lower-cased, stripped input;
otherwise it returns the record with all three fields absent.  No numeric
magnitude is ever returned and no kg→g / l→ml conversion is performed. -/
theorem claim_C2_thm (s : String) :
    parse_size_weight_volume (some s) = .error PyErr.attributeError ↔
      ∃ i, NumUnitAt (pyStrip (s.data.map pyToLower)) i := by
  by_cases hse : s.data.isEmpty
  · have hdata : s.data = [] := List.isEmpty_iff.mp hse
    have hred : parse_size_weight_volume (some s) = .ok ⟨Option.none, Option.none, Option.none⟩ := by
      simp [parse_size_weight_volume, hse]
    rw [hred]
    constructor
    · intro h
      exact Except.noConfusion h
    · rintro ⟨i, hi⟩
      rw [hdata] at hi
      simp only [List.map_nil, pyStrip_nil] at hi
      exact absurd hi (NumUnitAt_nil i)
  · by_cases hsome : (numUnitSearch (pyStrip (s.data.map pyToLower))).isSome = true
    · have hred : parse_size_weight_volume (some s) = .error PyErr.attributeError := by
        simp [parse_size_weight_volume, hse, hsome]
      rw [hred]
      exact iff_of_true rfl ((numUnitSearch_isSome_iff _).mp hsome)
    · have hred : parse_size_weight_volume (some s) = .ok ⟨Option.none, Option.none, Option.none⟩ := by
        simp [parse_size_weight_volume, hse, hsome]
      rw [hred]
      constructor
      · intro h
        exact Except.noConfusion h
      · intro hex
        exact absurd ((numUnitSearch_isSome_iff _).mpr hex) hsome

/-- Claim C2 witness: the amended theorem applied at `"1.5kg"`, with the
declarative match exhibited explicitly. -/
theorem claim_C2_witness :
    parse_size_weight_volume (some "1.5kg") = .error PyErr.attributeError :=
  (claim_C2_thm "1.5kg").mpr
    ⟨0, ['1'], ['.', '5'], [], ['k', 'g'], [], by decide, by decide, by decide,
      Or.inr ⟨'.', ['5'], rfl, Or.inl rfl, by decide, by decide⟩, by decide, by decide,
      by decide⟩

/-- Claim C5 counterexample: the claim states an already-numeric input is
accepted directly; the code stringifies it and scans, so the number `12.5`
(python `str` rendering `"12.5"`, which has no two-decimal pattern) maps to
absent rather than to `12.5`. -/
theorem claim_C5_counterexample :
    pyStrOfVal (PyVal.num (mkRat 25 2)) = "12.5" ∧
      clean_price (PyVal.num (mkRat 25 2)) = Option.none := by
  constructor <;> decide

/-- Claim C5 (amended): for string input, `clean_price` succeeds exactly on
the leftmost occurrence of the pattern *digits, one of `.`/`,`, exactly two
digits*, returning its value with the separator read as a decimal point;
numeric input is not accepted directly but stringified and scanned the same
way (so e.g. `12.5` maps to absent), and falsy input maps to absent. -/
theorem claim_C5_thm (s : String) (v : ℚ) :
    clean_price (PyVal.str s) = some v ↔
      ∃ i m, PriceTokAt s.data i m ∧ (∀ j m', PriceTokAt s.data j m' → i ≤ j) ∧
        v = mkRat (centsOfTok m) 100 := by
  by_cases hse : s.data.isEmpty
  · have hdata : s.data = [] := List.isEmpty_iff.mp hse
    have hred : clean_price (PyVal.str s) = Option.none := by
      simp [clean_price, pyTruthy, hse]
    rw [hred]
    constructor
    · intro h
      exact Option.noConfusion h
    · rintro ⟨i, m, hTok, -, -⟩
      rw [hdata] at hTok
      exact absurd hTok (PriceTokAt_nil i m)
  · have hred : clean_price (PyVal.str s) =
        (priceSearch s.data).map (fun m => mkRat (centsOfTok m) 100) := by
      simp [clean_price, pyTruthy, hse, pyStrOfVal]
    rw [hred, Option.map_eq_some']
    constructor
    · rintro ⟨m, hsearch, hv⟩
      obtain ⟨i, hTok, hMin⟩ := (priceSearch_some_iff s.data m).mp hsearch
      exact ⟨i, m, hTok, hMin, hv.symm⟩
    · rintro ⟨i, m, hTok, hMin, hv⟩
      exact ⟨m, (priceSearch_some_iff s.data m).mpr ⟨i, hTok, hMin⟩, hv.symm⟩

/-- Claim C5 witness: the amended theorem applied at `"R 45.99"` — the match
at position 2 with matched text `"45.99"` is exhibited, its leftmostness
discharged, and the value `45.99` concluded. -/
theorem claim_C5_witness : clean_price (PyVal.str "R 45.99") = some (mkRat 4599 100) :=
  (claim_C5_thm "R 45.99" (mkRat 4599 100)).mpr
    ⟨2, ['4', '5', '.', '9', '9'],
      ⟨['4', '5'], '.', '9', '9', [], by decide, by decide, by decide, Or.inl rfl,
        by decide, by decide, by decide⟩,
      by
        intro j m' hj
        by_contra hlt
        push_neg at hlt
        interval_cases j
        · exact (priceTokAt_none_iff _).mp (by decide) m'
            ((PriceTokAt_iff_drop _ 0 m').mp hj)
        · exact (priceTokAt_none_iff _).mp (by decide) m'
            ((PriceTokAt_iff_drop _ 1 m').mp hj),
      by decide⟩

/-- Claim C6 counterexample: idempotence fails already at `x = "R 45.10"`.
`clean_price` extracts `45.1`, and CPython renders that float as `"45.1"`
(the shortest round-trip repr drops the trailing zero); re-cleaning the
rendering fails, because `"45.1"` contains no *digits, separator, exactly two
digits* token — so `clean_price(str(clean_price(x)))` is absent while
`clean_price(x) = 45.1`. -/
theorem claim_C6_counterexample :
    clean_price (PyVal.str "R 45.10") = some (mkRat 4510 100) ∧
      clean_price (PyVal.str "45.1") = Option.none := by
  constructor <;> decide

/-- Claim C6 (amended): `clean_price` is not idempotent — re-cleaning the
`str` rendering of an extracted price loses it whenever CPython renders the
float without both decimal digits, already for trailing-zero cents
(`str(45.1) = "45.1"`) and, through 53-bit rounding, at large magnitudes
(`str(float("562949953421312.13")) = "562949953421312.1"`).  What holds
independently of float formatting: re-cleaning any exact two-decimal numeral
`D.dd` returns precisely its value, so idempotence holds exactly when the
rendering retains the two-decimal form. -/
theorem claim_C6_thm (ds : List Char) (d1 d2 : Char) (hds : ds ≠ [])
    (hdig : ∀ c ∈ ds, pyIsDigit c = true) (h1 : pyIsDigit d1 = true)
    (h2 : pyIsDigit d2 = true) :
    clean_price (PyVal.str (String.mk (ds ++ ['.', d1, d2]))) =
      some (mkRat (digitsToNat ds * 100 + digitVal d1 * 10 + digitVal d2) 100) := by
  have hne : ds ++ ['.', d1, d2] ≠ [] := by
    intro habs
    exact hds (List.append_eq_nil.mp habs).1
  have hse : (String.mk (ds ++ ['.', d1, d2])).data.isEmpty = false :=
    isEmpty_false_of_ne_nil hne
  have hTok : priceTokAt (ds ++ ['.', d1, d2]) = some (ds ++ ['.', d1, d2]) := by
    apply (priceTokAt_some_iff _ _).mpr
    exact ⟨ds, '.', d1, d2, [], by simp, hds, hdig, Or.inl rfl, h1, h2, by simp⟩
  have hred : clean_price (PyVal.str (String.mk (ds ++ ['.', d1, d2]))) =
      (priceSearch (ds ++ ['.', d1, d2])).map (fun m => mkRat (centsOfTok m) 100) := by
    simp [clean_price, pyTruthy, hse, pyStrOfVal]
  rw [hred, priceSearch_cons_eq _ hne _ hTok, Option.map_some', centsOfTok_exact ds d1 d2 hdig]
  norm_cast

/-- Claim C6 witness: the amended theorem applied at the two-decimal numeral
`"45.99"`, which re-cleans to exactly `45.99`. -/
theorem claim_C6_witness :
    clean_price (PyVal.str (String.mk ['4', '5', '.', '9', '9'])) = some (mkRat 4599 100) :=
  claim_C6_thm ['4', '5'] '9' '9' (by decide) (by decide) (by decide) (by decide)

/-- Claim C7 counterexample: the claim states `"none"` and `"nan"` map to
absent and that whitespace is collapsed and trimmed in the output; the code
returns `"none"` and `"nan"` verbatim (only falsy inputs are rejected), and
deleting a special character can leave a leading space, as in
`clean_text("% a") = " a"`. -/
theorem claim_C7_counterexample :
    clean_text (some "none") = some "none" ∧ clean_text (some "nan") = some "nan" ∧
      clean_text (some "% a") = some " a" := by
  refine ⟨by decide, by decide, by decide⟩

/-- Claim C7 (amended): `clean_text` maps an input to absent exactly when,
after collapsing whitespace runs and trimming the ends, every remaining
character is outside the kept class (in particular `""` maps to absent, while
`"none"` and `"nan"` are not sentinels and pass through); whitespace collapse
happens before character deletion, so every whitespace character in a
non-absent output is a single ASCII space, though deletions may leave such
spaces adjacent or at the ends. -/
theorem claim_C7_thm :
    (∀ s : String, clean_text (some s) = Option.none ↔
      ∀ c ∈ pyStrip (collapseWs s.data), keptChar c = false) ∧
    ∀ (s t : String), clean_text (some s) = some t →
      ∀ c ∈ t.data, isPySpace c = true → c = ' ' := by
  refine ⟨clean_text_eq_none_iff, ?_⟩
  intro s t h c hc hsp
  rw [clean_text_some_data h] at hc
  obtain ⟨c', hc', hfix⟩ := List.mem_map.mp hc
  by_cases hdash : (c' == '–' || c' == '—') = true
  · have hcm : c = '-' := by
      rw [← hfix]
      simp [dashFix, hdash]
    rw [hcm] at hsp
    exact absurd hsp (by decide)
  · have hcc : c = c' := by
      rw [← hfix]
      simp [dashFix, hdash]
    subst hcc
    have hmem : c ∈ collapseWs s.data := mem_pyStrip (List.mem_filter.mp hc').1
    exact mem_collapseAux_space s.data false c hmem hsp

/-- Claim C7 witness: the amended characterization applied at `"%%"`, whose
post-collapse characters are all outside the kept class. -/
theorem claim_C7_witness : clean_text (some "%%") = Option.none :=
  (claim_C7_thm.1 "%%").mpr (by decide)

/-- Claim C10: every character of a non-absent `clean_text` output is a word
character, whitespace, or one of `. , - ( ) & /` — other characters are
deleted and en/em dashes rewritten to `-` — and the same holds for the
`product_name` field produced by `normalize_product_data`, which routes
product names through `clean_text`. -/
theorem claim_C10_thm :
    (∀ (s t : String), clean_text (some s) = some t → ∀ c ∈ t.data, keptOut c = true) ∧
    ∀ (p : RawRecord) (out : NormRecord) (t : String), normalize_product_data p = .ok out →
      out.product_name = some t → ∀ c ∈ t.data, keptOut c = true := by
  have h1 : ∀ (s t : String), clean_text (some s) = some t →
      ∀ c ∈ t.data, keptOut c = true := by
    intro s t h c hc
    rw [clean_text_some_data h] at hc
    obtain ⟨c', hc', hfix⟩ := List.mem_map.mp hc
    have hkept : keptChar c' = true := (List.mem_filter.mp hc').2
    by_cases hdash : (c' == '–' || c' == '—') = true
    · have hcm : c = '-' := by
        rw [← hfix]
        simp [dashFix, hdash]
      rw [hcm]
      decide
    · have hcc : c = c' := by
        rw [← hfix]
        simp [dashFix, hdash]
      subst hcc
      simp only [Bool.or_eq_true, beq_iff_eq] at hdash
      push_neg at hdash
      simp only [keptChar, Bool.or_eq_true, beq_iff_eq] at hkept
      simp only [keptOut, Bool.or_eq_true, beq_iff_eq]
      rcases hkept with ((((((((((h | h) | h) | h) | h) | h) | h) | h) | h) | h) | h)
      · tauto
      · tauto
      · tauto
      · tauto
      · tauto
      · exact absurd h hdash.1
      · exact absurd h hdash.2
      · tauto
      · tauto
      · tauto
      · tauto
  refine ⟨h1, ?_⟩
  intro p out t h hname c hc
  rw [normalize_product_data_name h] at hname
  cases hpn : p.product_name with
  | none => rw [hpn] at hname; exact Option.noConfusion hname
  | some s =>
    rw [hpn] at hname
    exact h1 s t hname c hc

/-- Claim C10 witness: the theorem applied at `"a–b"`, whose cleaned form is
`"a-b"`; the character `'-'` of the output is in the asserted class. -/
theorem claim_C10_witness : keptOut '-' = true :=
  claim_C10_thm.1 "a–b" "a-b" (by decide) '-' (by decide)

/-- Claim C8: the scorer used by the matcher (`fuzz.token_sort_ratio`) is
symmetric, scores any non-empty string against itself at 100, and is invariant
under reordering the whitespace-delimited tokens of either input. -/
theorem claim_C8_thm :
    (∀ a b : String, token_sort_ratio a b = token_sort_ratio b a) ∧
    (∀ a : String, a ≠ "" → token_sort_ratio a a = 100) ∧
    ∀ (a a' b : String), (tokens a').Perm (tokens a) →
      token_sort_ratio a' b = token_sort_ratio a b ∧
        token_sort_ratio b a' = token_sort_ratio b a := by
  refine ⟨token_sort_ratio_symm, fun a _ => token_sort_ratio_self a, ?_⟩
  intro a a' b h
  refine ⟨token_sort_ratio_congr_left b h, ?_⟩
  rw [token_sort_ratio_symm b a', token_sort_ratio_congr_left b h, token_sort_ratio_symm]

/-- Claim C8 witness: the theorem applied at the spec's example —
`score("frozen beef pie", "frozen beef pie") = 100` and reordering the first
argument's tokens to `"pie beef frozen"` leaves the score unchanged. -/
theorem claim_C8_witness :
    token_sort_ratio "frozen beef pie" "frozen beef pie" = 100 ∧
      token_sort_ratio "pie beef frozen" "frozen beef pie" =
        token_sort_ratio "frozen beef pie" "frozen beef pie" :=
  ⟨claim_C8_thm.2.1 "frozen beef pie" (by decide),
    (claim_C8_thm.2.2 "frozen beef pie" "pie beef frozen" "frozen beef pie" (by decide)).1⟩

/-! Membership in the deduplicated retailer list. -/

theorem foldl_dedup_mem :
    ∀ (l acc : List (Option String)) (x : Option String),
      (x ∈ l.foldl (fun acc r => if acc.contains r then acc else acc ++ [r]) acc) ↔
        x ∈ acc ∨ x ∈ l := by
  intro l
  induction l with
  | nil => intro acc x; simp
  | cons r t ih =>
    intro acc x
    simp only [List.foldl_cons]
    by_cases hc : acc.contains r = true
    · rw [if_pos hc, ih]
      constructor
      · rintro (h | h)
        · exact Or.inl h
        · exact Or.inr (List.mem_cons_of_mem r h)
      · rintro (h | h)
        · exact Or.inl h
        · rcases List.mem_cons.mp h with h | h
          · subst h
            exact Or.inl (List.elem_iff.mp hc)
          · exact Or.inr h
    · rw [if_neg hc, ih]
      simp only [List.mem_append, List.mem_singleton, List.mem_cons]
      tauto

theorem mem_dedupFirst (l : List (Option String)) (x : Option String) :
    x ∈ dedupFirst l ↔ x ∈ l := by
  unfold dedupFirst
  rw [foldl_dedup_mem]
  simp

theorem dedup_any_isNone (df : List Record) :
    ((dedupFirst (df.map Record.retailer)).any fun r => r.isNone) = true ↔
      ∃ r ∈ df, r.retailer = Option.none := by
  rw [List.any_eq_true]
  constructor
  · rintro ⟨x, hx, hxn⟩
    rw [mem_dedupFirst] at hx
    obtain ⟨r, hr, hrx⟩ := List.mem_map.mp hx
    exact ⟨r, hr, by rw [hrx]; exact Option.isNone_iff_eq_none.mp hxn⟩
  · rintro ⟨r, hr, hrn⟩
    exact ⟨Option.none, (mem_dedupFirst _ _).mpr (List.mem_map.mpr ⟨r, hr, hrn⟩), rfl⟩

/-! Concrete pools for the matcher claims. -/

/-- Catalog A, product 1: "Beef Pie" at 10, url a1. -/
def c3rowA1 : Record :=
  ⟨some "A", some "Beef Pie", Option.none, Option.none, Cell.num (mkRat 10 1), Cell.none,
    some "a1"⟩

/-- Catalog A, product 2: "Beef Pie" at 11, url a2. -/
def c3rowA2 : Record :=
  ⟨some "A", some "Beef Pie", Option.none, Option.none, Cell.num (mkRat 11 1), Cell.none,
    some "a2"⟩

/-- Catalog B, product q: "Beef Pie" at 5, url b1. -/
def c3rowB : Record :=
  ⟨some "B", some "Beef Pie", Option.none, Option.none, Cell.num (mkRat 5 1), Cell.none,
    some "b1"⟩

/-- A pool in which two reference products both resemble catalog B's single
product q. -/
def c3pool : List Record := [c3rowA1, c3rowA2, c3rowB]

/-- Catalog B's `(price, price_per_unit, product_url)` entry. -/
def c3entryB : Option String × Triple :=
  (some "B", ⟨Cell.num (mkRat 5 1), Cell.none, some "b1"⟩)

/-- Claim C3 counterexample: the claim states a matched product q is marked
consumed so that at most one reference product's group contains q's triple; on
`c3pool` the matcher emits two groups and catalog B's product q contributes
its `(price, price_per_unit, product_url)` triple to both. -/
theorem claim_C3_counterexample :
    find_similar_products 80 c3pool =
      .ok [⟨"Beef Pie", Option.none, Option.none,
              [(some "A", ⟨Cell.num (mkRat 10 1), Cell.none, some "a1"⟩), c3entryB]⟩,
           ⟨"Beef Pie", Option.none, Option.none,
              [(some "A", ⟨Cell.num (mkRat 11 1), Cell.none, some "a2"⟩), c3entryB]⟩] := by
  decide

/-- Claim C3 (amended): no consumed-marking of matched candidates exists.
Unless the run aborts first (missing retailer column ⇒ `KeyError`; a NaN
retailer label meeting the eager `', '.join` ⇒ `TypeError`), the matcher's
only state — the set of already-used reference indices — never affects the
outcome (reference indices are pairwise distinct), so the whole computation
is a stateless `filterMap` over the reference slice in which every reference
product searches the full, unmodified other-catalog lists; the same candidate
q may therefore be claimed by any number of reference products. -/
theorem claim_C3_thm (th : ℚ) (df : List Record) :
    find_similar_products th df =
      if retailerColMissing df then Except.error PyErr.keyError
      else if (dedupFirst (df.map Record.retailer)).any (fun r => r.isNone) then
        Except.error PyErr.typeError
      else Except.ok (groupsOf th df) :=
  find_eq_groupsOf th df

/-- Base row whose price is NaN: its price was absent, but the price column
also holds numbers, so pandas stores NaN — which passes `is not None`. -/
def c4rowNanPrice : Record :=
  ⟨some "A", some "Beef Pie", Option.none, Option.none, Cell.nan, Cell.num (mkRat 2 1),
    some "a3"⟩

/-- Pool whose candidate group has one NaN price and one real price. -/
def c4poolNan : List Record := [c4rowNanPrice, c3rowB]

/-- Row of catalog A with a true-`None` price (all-absent object column). -/
def c4rowANone : Record :=
  ⟨some "A", some "Beef Pie", Option.none, Option.none, Cell.none, Cell.none, some "a1"⟩

/-- Row of catalog B with a true-`None` price. -/
def c4rowBNone : Record :=
  ⟨some "B", some "Beef Pie", Option.none, Option.none, Cell.none, Cell.none, some "b1"⟩

/-- Pool whose candidate group gathers triples from two catalogs, with every
price a true `None`. -/
def c4poolNone : List Record := [c4rowANone, c4rowBNone]

/-- Claim C4 counterexample, both directions of the claimed equivalence.  On
`c4poolNone` catalogs A and B both contribute their triples (two entries in
the candidate group), yet the group is discarded: the claim's "retained iff
two catalogs contributed a price triple" fails.  On `c4poolNan` the group is
retained although only one of its prices is an actual number — the A-side
price is NaN, an absent value that passes the source's `is not None` test —
so "no group in the output has fewer than 2 populated price fields" fails
for any reading of "populated" as carrying actual price data. -/
theorem claim_C4_counterexample :
    (find_similar_products 80 c4poolNone = .ok [] ∧
      candidateGroups 80 c4poolNone =
        [⟨"Beef Pie", Option.none, Option.none,
            [(some "A", ⟨Cell.none, Cell.none, some "a1"⟩),
             (some "B", ⟨Cell.none, Cell.none, some "b1"⟩)]⟩]) ∧
    find_similar_products 80 c4poolNan =
      .ok [⟨"Beef Pie", Option.none, Option.none,
          [(some "A", ⟨Cell.nan, Cell.num (mkRat 2 1), some "a3"⟩), c3entryB]⟩] := by
  refine ⟨⟨by decide, by decide⟩, by decide⟩

/-- Claim C4 (amended): a group appears in the final comparison table iff it
is a candidate group (reference product with truthy name) in which at least
two catalogs' price cells are not `None` — where a NaN price (an absent value
in a column that also holds numbers) passes the `is not None` test and counts
toward retention, while a true-`None` price (all-absent object column) does
not, even though its catalog contributed a triple. -/
theorem claim_C4_thm (th : ℚ) (df : List Record) (tbl : List Group) (g : Group)
    (h : create_comparison_table th df = .ok (some tbl)) :
    g ∈ tbl ↔ g ∈ candidateGroups th df ∧ 2 ≤ priceCount g := by
  unfold create_comparison_table at h
  by_cases hdf : df.isEmpty
  · rw [if_pos hdf] at h
    simp at h
  · rw [if_neg (by simp [hdf] : ¬(df.isEmpty = true)), find_eq_groupsOf] at h
    by_cases hmiss : retailerColMissing df
    · rw [if_pos hmiss] at h
      exact Except.noConfusion h
    · rw [if_neg hmiss] at h
      by_cases hnan : ((dedupFirst (df.map Record.retailer)).any (fun r => r.isNone)) = true
      · rw [if_pos hnan] at h
        exact Except.noConfusion h
      · rw [if_neg hnan] at h
        have h2 : (if (groupsOf th df).isEmpty then
            (Except.ok Option.none : Except PyErr (Option (List Group)))
            else Except.ok (some (List.insertionSort groupLe (groupsOf th df)))) =
            Except.ok (some tbl) := h
        by_cases hgs : (groupsOf th df).isEmpty
        · rw [if_pos hgs] at h2
          simp at h2
        · rw [if_neg hgs] at h2
          injection h2 with h2
          injection h2 with h2
          rw [← h2, (List.perm_insertionSort groupLe (groupsOf th df)).mem_iff,
            groupsOf_eq_filter, List.mem_filter, decide_eq_true_eq]

/-- Single-group pool for the C4 witness. -/
def c4wpool : List Record := [c3rowA1, c3rowB]

/-- The group `c4wpool` produces. -/
def c4wgroup : Group :=
  ⟨"Beef Pie", Option.none, Option.none,
    [(some "A", ⟨Cell.num (mkRat 10 1), Cell.none, some "a1"⟩), c3entryB]⟩

/-- Claim C4 witness: the theorem applied to the concrete pool `c4wpool`,
whose table is `[c4wgroup]`; membership in the table yields candidacy plus
two non-`None` prices. -/
theorem claim_C4_witness : c4wgroup ∈ candidateGroups 80 c4wpool ∧ 2 ≤ priceCount c4wgroup :=
  (claim_C4_thm 80 c4wpool [c4wgroup] c4wgroup (by decide)).mp (by decide)

/-- A record with no retailer key, between two retailer-bearing records. -/
def c9rowNone : Record :=
  ⟨Option.none, some "Beef Pie", Option.none, Option.none, Cell.num (mkRat 9 1), Cell.none,
    some "u9"⟩

/-- Pool containing a record that lacks the retailer key. -/
def c9pool : List Record := [c3rowA1, c9rowNone, c3rowB]

/-- Claim C9 counterexample: the claim states a raw record missing `retailer`
is reported to the caller as a structural error carrying the offending
record's index; on `c9pool` (whose middle record has no retailer) the run
aborts with a plain `TypeError` — raised when the eager log formatting
`', '.join(retailers)` meets the NaN catalog label — an error that names
neither the record nor its index and is no structural validation of the
input. -/
theorem claim_C9_counterexample :
    create_comparison_table 80 c9pool = .error PyErr.typeError := by
  decide

/-- Claim C9 (amended): a record missing the `retailer` key does abort
processing, and no partial table is produced — but never through a structural
error carrying the record's index.  When every record lacks the key the
column lookup `df['retailer']` raises `KeyError` naming the column; when only
some do, the NaN label reaches `', '.join(retailers)` and raises `TypeError`.
These are exactly the model's abort conditions: an error occurs iff some
record lacks the key. -/
theorem claim_C9_thm (th : ℚ) (df : List Record) :
    (create_comparison_table th df = .error PyErr.keyError ↔
        df ≠ [] ∧ ∀ r ∈ df, r.retailer = Option.none) ∧
    (create_comparison_table th df = .error PyErr.typeError ↔
        (∃ r ∈ df, r.retailer = Option.none) ∧ ∃ r ∈ df, r.retailer ≠ Option.none) ∧
    ((∃ e, create_comparison_table th df = .error e) ↔
        ∃ r ∈ df, r.retailer = Option.none) := by
  unfold create_comparison_table
  by_cases hdf : df.isEmpty
  · have hdata : df = [] := List.isEmpty_iff.mp hdf
    subst hdata
    simp
  · have hne : df ≠ [] := by simpa [List.isEmpty_iff] using hdf
    rw [if_neg (by simp [hdf] : ¬(df.isEmpty = true)), find_eq_groupsOf]
    by_cases hmiss : retailerColMissing df
    · rw [if_pos hmiss]
      have hall : ∀ r ∈ df, r.retailer = Option.none := by
        intro r hr
        have := (List.all_eq_true.mp hmiss) r hr
        simpa [Option.isNone_iff_eq_none] using this
      refine ⟨iff_of_true rfl ⟨hne, hall⟩, iff_of_false (by simp) ?_, ?_⟩
      · rintro ⟨-, r, hr, hrs⟩
        exact hrs (hall r hr)
      · obtain ⟨r, hr⟩ := List.exists_mem_of_ne_nil df hne
        exact iff_of_true ⟨PyErr.keyError, rfl⟩ ⟨r, hr, hall r hr⟩
    · rw [if_neg hmiss]
      have hsome : ∃ r ∈ df, r.retailer ≠ Option.none := by
        by_contra hcon
        push_neg at hcon
        apply hmiss
        apply List.all_eq_true.mpr
        intro r hr
        simpa [Option.isNone_iff_eq_none] using hcon r hr
      by_cases hnan : ((dedupFirst (df.map Record.retailer)).any (fun r => r.isNone)) = true
      · rw [if_pos hnan]
        have hex : ∃ r ∈ df, r.retailer = Option.none := (dedup_any_isNone df).mp hnan
        refine ⟨iff_of_false (by simp) ?_, iff_of_true rfl ⟨hex, hsome⟩,
          iff_of_true ⟨PyErr.typeError, rfl⟩ hex⟩
        rintro ⟨-, hall⟩
        obtain ⟨r, hr, hrs⟩ := hsome
        exact hrs (hall r hr)
      · rw [if_neg hnan]
        have hnone : ¬∃ r ∈ df, r.retailer = Option.none := by
          intro hex
          exact hnan ((dedup_any_isNone df).mpr hex)
        have hok : ∀ e, (if (groupsOf th df).isEmpty then
            (Except.ok Option.none : Except PyErr (Option (List Group)))
            else Except.ok (some (List.insertionSort groupLe (groupsOf th df)))) ≠
            Except.error e := by
          intro e
          by_cases hgs : (groupsOf th df).isEmpty
          · rw [if_pos hgs]
            exact fun habs => Except.noConfusion habs
          · rw [if_neg hgs]
            exact fun habs => Except.noConfusion habs
        refine ⟨iff_of_false (hok PyErr.keyError) ?_, iff_of_false (hok PyErr.typeError) ?_,
          iff_of_false ?_ hnone⟩
        · rintro ⟨-, hall⟩
          obtain ⟨r, hr⟩ := List.exists_mem_of_ne_nil df hne
          exact hnone ⟨r, hr, hall r hr⟩
        · rintro ⟨hex, -⟩
          exact hnone hex
        · rintro ⟨e, habs⟩
          exact hok e habs

/-- Pool in which every record lacks the retailer key. -/
def c9allNonePool : List Record := [c9rowNone]

/-- Claim C9 witness: the amended theorem applied at concrete pools — the
wholly missing column yields the key error, and the mixed pool `c9pool`
contains a key-less record, so some error is guaranteed there. -/
theorem claim_C9_witness :
    create_comparison_table 80 c9allNonePool = .error PyErr.keyError :=
  ((claim_C9_thm 80 c9allNonePool).1).mpr ⟨by decide, by decide⟩

end FrozenFoods
